import Mathlib

/-!
Shallow embedding of the file-backed users API in src/app.js: the JSON value
model, the parsing and serialization used by the persistence layer, and the
request handlers for GET /users, GET /api/users/:id and POST /users.

Files on disk are modelled as `Option String` (`none` = the read fails because
the file is missing or unreadable). JSON numbers are modelled as integers: the
data model's ids are integers and fractional values would go through floating
point, which is outside this embedding.
-/

/-- JavaScript values produced by `JSON.parse`, plus `NaN`, which arises from
number coercion (e.g. `Math.max` over non-numeric ids). Numbers are integers
in this embedding. -/
inductive JVal where
  | null
  | nan
  | bool (b : Bool)
  | num (n : Int)
  | str (s : String)
  | arr (elems : List JVal)
  | obj (fields : List (String × JVal))

/-- JavaScript truthiness of a value, as tested by `if (users)` in the
handlers. -/
def truthy : JVal → Bool
  | JVal.null => false
  | JVal.nan => false
  | JVal.bool b => b
  | JVal.num n => n != 0
  | JVal.str s => s != ""
  | JVal.arr _ => true
  | JVal.obj _ => true

/-- First-match lookup in an object's field list (JavaScript objects hold each
key at most once, so first match is the only match). -/
def objLookup : List (String × JVal) → String → Option JVal
  | [], _ => none
  | (k, v) :: rest, key => if k = key then some v else objLookup rest key

/-- Property access `u.f`; `none` models JavaScript `undefined`. Property
access on primitives and arrays yields `undefined` for the fields used here;
accessing a property of `null` would throw, but no claim exercises that. -/
def getField : JVal → String → Option JVal
  | JVal.obj kvs, key => objLookup kvs key
  | _, _ => none

/-- Object-literal key assignment: an existing key keeps its position and is
overwritten, a new key is appended (JavaScript object key ordering). -/
def objSet : List (String × JVal) → String → JVal → List (String × JVal)
  | [], k, v => [(k, v)]
  | (k', v') :: rest, k, v =>
    if k' = k then (k', v) :: rest else (k', v') :: objSet rest k v

/-- Spreading the entries of `src` into an object that already holds `init`'s
entries, as in an object literal that lists `init`'s keys and then spreads
`src`. -/
def spreadInto (init : List (String × JVal)) (src : List (String × JVal)) :
    List (String × JVal) :=
  src.foldl (fun acc kv => objSet acc kv.1 kv.2) init

/-- JavaScript `a || b` where `a` may be an absent property (`undefined`). -/
def jsOr (v : Option JVal) (d : JVal) : JVal :=
  match v with
  | some x => if truthy x then x else d
  | none => d

/-- JavaScript ToNumber on a property value, as applied by
`Math.max(...users.map(user => user.id))`; `none` is `NaN`. String, array and
object coercion would go through floating point and is modelled as `NaN`;
every claim about ids restricts them to integers, where the coercion is the
identity. -/
def jsToNumber : Option JVal → Option Int
  | none => none
  | some JVal.null => some 0
  | some JVal.nan => none
  | some (JVal.bool b) => some (if b then 1 else 0)
  | some (JVal.num n) => some n
  | some (JVal.str _) => none
  | some (JVal.arr _) => none
  | some (JVal.obj _) => none

/-- `Math.max` over already-coerced arguments; `none` (`NaN`) propagates. The
empty case (`-Infinity` in JavaScript) is unreachable behind the
`users.length > 0` guard and is modelled as `none`. -/
def mathMax : List (Option Int) → Option Int
  | [] => none
  | [x] => x
  | x :: xs =>
    match x, mathMax xs with
    | some a, some b => some (max a b)
    | _, _ => none

/-- app.js line 153:
`const nextId = users.length > 0 ? Math.max(...users.map(user => user.id)) + 1 : 1;` -/
def nextId (users : List JVal) : Option Int :=
  if users.length > 0 then
    (mathMax (users.map fun u => jsToNumber (getField u "id"))).map (· + 1)
  else
    some 1

/-- The id value spliced into the new record: `NaN` when the max computation
was not numeric. -/
def idValue : Option Int → JVal
  | some n => JVal.num n
  | none => JVal.nan

/-- app.js line 156: `const defaultRole = 'peasant';` -/
def defaultRole : JVal := JVal.str "peasant"

/-- app.js lines 157-161:
`const newUser = { id: nextId, ...req.body, role: req.body.role || defaultRole };`
The entries are assigned left to right, so a key of `req.body` overwrites the
`id` entry and the final `role` assignment overwrites any spread `role`. -/
def newUser (nid : Option Int) (body : List (String × JVal)) :
    List (String × JVal) :=
  objSet (spreadInto [("id", idValue nid)] body) "role"
    (jsOr (objLookup body "role") defaultRole)

/-- Whitespace recognized by the JSON grammar (and trimmed by `parseInt`). -/
def isWs (c : Char) : Bool := c = ' ' || c = '\n' || c = '\t' || c = '\r'

/-- Drop leading whitespace. -/
def skipWs (cs : List Char) : List Char := cs.dropWhile isWs

/-- A character list made only of whitespace. -/
def wsOnly (cs : List Char) : Prop := ∀ c ∈ cs, isWs c = true

/-- Decimal value of a digit string, accumulated left to right. -/
def digitsToNat (cs : List Char) : Nat :=
  cs.foldl (fun acc c => 10 * acc + (c.toNat - 48)) 0

/-- Longest leading digit run as a number, with the remaining characters;
`none` when there is no leading digit. -/
def parseNatNum (cs : List Char) : Option (Nat × List Char) :=
  if (cs.takeWhile fun c => c.isDigit).isEmpty then none
  else some (digitsToNat (cs.takeWhile fun c => c.isDigit),
    cs.dropWhile fun c => c.isDigit)

/-- JSON number literal (integer part only: fractional and exponent forms go
through floating point and are outside this embedding, so such files simply
fail to parse). -/
def parseNumber (cs : List Char) : Option (JVal × List Char) :=
  match cs with
  | [] => none
  | c :: rest =>
    if c = '-' then (parseNatNum rest).map fun p => (JVal.num (-(p.1 : Int)), p.2)
    else (parseNatNum (c :: rest)).map fun p => (JVal.num (p.1 : Int), p.2)

/-- JSON string escapes (the `\uXXXX` form for rare control characters is
outside this embedding). -/
def unescape : Char → Option Char
  | '\"' => some '\"'
  | '\\' => some '\\'
  | '/' => some '/'
  | 'n' => some '\n'
  | 't' => some '\t'
  | 'r' => some '\r'
  | 'b' => some (Char.ofNat 8)
  | 'f' => some (Char.ofNat 12)
  | _ => none

/-- Body of a JSON string literal after the opening quote, accumulating the
decoded characters. -/
def parseStringBody : List Char → List Char → Option (String × List Char)
  | [], _ => none
  | c :: rest, acc =>
    if c = '\"' then some (String.mk acc, rest)
    else if c = '\\' then
      match rest with
      | [] => none
      | e :: rest1 =>
        match unescape e with
        | some x => parseStringBody rest1 (acc ++ [x])
        | none => none
    else parseStringBody rest (acc ++ [c])

/-- Match a literal character sequence, returning the remainder. -/
def dropLit : List Char → List Char → Option (List Char)
  | [], cs => some cs
  | l :: ls, c :: cs => if c = l then dropLit ls cs else none
  | _ :: _, [] => none

/-- The three states of the recursive-descent JSON parser: a value, the items
of a non-empty array after `[`, the members of a non-empty object after the
opening brace. -/
inductive PReq where
  | val (cs : List Char)
  | items (cs : List Char) (acc : List JVal)
  | members (cs : List Char) (acc : List (String × JVal))

/-- Fueled recursive-descent JSON parser; one function so that recursion is
structural on the fuel. -/
def parseGo : Nat → PReq → Option (JVal × List Char)
  | 0, _ => none
  | fuel + 1, PReq.val cs =>
    match skipWs cs with
    | [] => none
    | c :: rest =>
      if c = 'n' then (dropLit ['u', 'l', 'l'] rest).map fun r => (JVal.null, r)
      else if c = 't' then (dropLit ['r', 'u', 'e'] rest).map fun r => (JVal.bool true, r)
      else if c = 'f' then (dropLit ['a', 'l', 's', 'e'] rest).map fun r => (JVal.bool false, r)
      else if c = '\"' then (parseStringBody rest []).map fun p => (JVal.str p.1, p.2)
      else if c = '[' then
        match skipWs rest with
        | ']' :: r => some (JVal.arr [], r)
        | _ => parseGo fuel (PReq.items rest [])
      else if c = '\x7b' then
        match skipWs rest with
        | '\x7d' :: r => some (JVal.obj [], r)
        | _ => parseGo fuel (PReq.members rest [])
      else parseNumber (c :: rest)
  | fuel + 1, PReq.items cs acc =>
    match parseGo fuel (PReq.val cs) with
    | none => none
    | some (v, rest) =>
      match skipWs rest with
      | [] => none
      | c :: r =>
        if c = ',' then parseGo fuel (PReq.items r (acc ++ [v]))
        else if c = ']' then some (JVal.arr (acc ++ [v]), r)
        else none
  | fuel + 1, PReq.members cs acc =>
    match skipWs cs with
    | [] => none
    | c0 :: rest =>
      if c0 = '\"' then
        match parseStringBody rest [] with
        | none => none
        | some (k, rest1) =>
          match skipWs rest1 with
          | [] => none
          | c1 :: r =>
            if c1 = ':' then
              match parseGo fuel (PReq.val r) with
              | none => none
              | some (v, rest2) =>
                match skipWs rest2 with
                | [] => none
                | c2 :: r2 =>
                  if c2 = ',' then parseGo fuel (PReq.members r2 (acc ++ [(k, v)]))
                  else if c2 = '\x7d' then
                    some (JVal.obj (acc ++ [(k, v)]), r2)
                  else none
            else none
      else none

/-- Parse a whole character list as one JSON document (trailing whitespace
allowed, anything else refused, as `JSON.parse` does). The fuel is one more
than the length, which the correctness lemmas show is enough. -/
def parseJsonList (cs : List Char) : Option JVal :=
  match parseGo (cs.length + 1) (PReq.val cs) with
  | some (v, rest) => if skipWs rest = [] then some v else none
  | none => none

/-- `JSON.parse` (app.js lines 31 and 150), restricted to integer numerics;
`none` models a thrown `SyntaxError`. -/
def parseJson (s : String) : Option JVal := parseJsonList s.data

/-- app.js lines 28-36: read and parse the backing file; any read or parse
failure is caught and surfaced as the value `null` (note that a file whose
contents are the JSON text `null` is indistinguishable from a failure). -/
def readJsonFile (file : Option String) : JVal :=
  match file with
  | none => JVal.null
  | some s =>
    match parseJson s with
    | some v => v
    | none => JVal.null

/-- Outcome of `GET /users`: 200 with a JSON payload, or 500. -/
inductive GetAllResult where
  | ok (v : JVal)
  | error500

/-- app.js lines 39-47: `GET /users` (and identically `/prettyusers`,
`/api/products`, `/api/orders`). -/
def getUsers (file : Option String) : GetAllResult :=
  let users := readJsonFile file
  if truthy users then GetAllResult.ok users else GetAllResult.error500

/-- Longest leading digit run as a `Nat`; `none` when there is no digit. -/
def leadingNat (cs : List Char) : Option Nat :=
  if (cs.takeWhile fun c => c.isDigit).isEmpty then none
  else some (digitsToNat (cs.takeWhile fun c => c.isDigit))

/-- `parseInt(s, 10)` (app.js line 109): trim leading whitespace, optional
sign, longest leading digit run; `none` is `NaN`. Trailing garbage is
ignored, as `parseInt` does. -/
def jsParseInt (s : String) : Option Int :=
  let cs := s.data.dropWhile isWs
  match cs with
  | '-' :: rest => (leadingNat rest).map fun n => -(n : Int)
  | '+' :: rest => (leadingNat rest).map fun n => (n : Int)
  | _ => (leadingNat cs).map fun n => (n : Int)

/-- Outcome of `GET /api/users/:id`: 200 with the record, 404, 500, or an
uncaught TypeError escaping the handler (`crash`). -/
inductive GetByIdResult where
  | ok (u : JVal)
  | notFound404
  | error500
  | crash

/-- `u.id === userId` in the find callback (app.js line 115); `none` for
`userId` is `NaN`, which strict equality never matches, and a non-number id
field is never strictly equal to a number. -/
def idEquals (userId : Option Int) (u : JVal) : Bool :=
  match getField u "id", userId with
  | some (JVal.num m), some n => m == n
  | _, _ => false

/-- app.js lines 108-124: `GET /api/users/:id`. `crash` marks the path where
a truthy non-array value reaches `users.find` and the TypeError escapes the
handler. -/
def getUserById (file : Option String) (idStr : String) : GetByIdResult :=
  let userId := jsParseInt idStr
  let users := readJsonFile file
  if truthy users then
    match users with
    | JVal.arr us =>
      match us.find? (idEquals userId) with
      | some u => GetByIdResult.ok u
      | none => GetByIdResult.notFound404
    | _ => GetByIdResult.crash
  else GetByIdResult.error500

/-- Outcome of `POST /users`: 201 with the new record and the persisted
collection, or 500. -/
inductive PostResult where
  | created201 (nu : List (String × JVal)) (saved : List JVal)
  | error500

/-- app.js lines 146-175: `POST /users`. `body` is the JSON-parsed request
body (an object), `writeOk` says whether `fs.writeFile` succeeds. A read
failure, a parse failure, a parsed non-array (whose `.map` or `.push` throws
a TypeError) and a write failure all land in the catch block, which answers
500; the 201 with `newUser` is sent only after the write resolves. -/
def postUsers (file : Option String) (body : List (String × JVal))
    (writeOk : Bool) : PostResult :=
  match file with
  | none => PostResult.error500
  | some data =>
    match parseJson data with
    | some (JVal.arr users) =>
      let nu := newUser (nextId users) body
      if writeOk then PostResult.created201 nu (users ++ [JVal.obj nu])
      else PostResult.error500
    | _ => PostResult.error500

/-- The collection persisted by one successful `POST /users` starting from
`users` (the read-modify-write cycle of lines 149-167). -/
def createStep (users : List JVal) (body : List (String × JVal)) : List JVal :=
  users ++ [JVal.obj (newUser (nextId users) body)]

/-- A sequential (non-concurrent) history of successful creates. -/
def runCreates (users : List JVal) (bodies : List (List (String × JVal))) :
    List JVal :=
  bodies.foldl createStep users

/-- Every record of the collection carries an integer id field. -/
def IntIds (users : List JVal) : Prop :=
  ∀ u ∈ users, ∃ k : Int, getField u "id" = some (JVal.num k)

/-- The id fields of the collection are pairwise distinct. -/
def DistinctIds (users : List JVal) : Prop :=
  (users.map fun u => getField u "id").Pairwise (· ≠ ·)

/-- Decimal digit character. -/
def digitChar : Nat → Char
  | 0 => '0'
  | 1 => '1'
  | 2 => '2'
  | 3 => '3'
  | 4 => '4'
  | 5 => '5'
  | 6 => '6'
  | 7 => '7'
  | 8 => '8'
  | 9 => '9'
  | _ => '0'

/-- Decimal rendering of a natural number. -/
def renderNat (n : Nat) : List Char :=
  if n = 0 then ['0'] else ((Nat.digits 10 n).map digitChar).reverse

/-- Decimal rendering of an integer, as `JSON.stringify` prints integral
numbers. -/
def renderInt : Int → List Char
  | Int.ofNat m => renderNat m
  | Int.negSucc m => '-' :: renderNat (m + 1)

/-- The escape `JSON.stringify` applies to one string character (rare control
characters would use `\uXXXX` and are passed through in this embedding). -/
def escapeChar (c : Char) : List Char :=
  if c = '\"' then ['\\', '\"']
  else if c = '\\' then ['\\', '\\']
  else if c = '\n' then ['\\', 'n']
  else if c = '\t' then ['\\', 't']
  else if c = '\r' then ['\\', 'r']
  else if c = Char.ofNat 8 then ['\\', 'b']
  else if c = Char.ofNat 12 then ['\\', 'f']
  else [c]

/-- Escape every character of a string body. -/
def escapeList : List Char → List Char
  | [] => []
  | c :: cs => escapeChar c ++ escapeList cs

/-- A JSON string literal. -/
def renderString (s : String) : List Char :=
  '\"' :: (escapeList s.data ++ ['\"'])

/-- Indentation blanks. -/
def spaces (n : Nat) : List Char := List.replicate n ' '

mutual

/-- `JSON.stringify(v, null, 4)` at nesting depth `d` (the write at app.js
line 167 serializes the collection this way); `NaN` prints as `null`, as
`JSON.stringify` does. -/
def renderVal : Nat → JVal → List Char
  | _, JVal.null => ['n', 'u', 'l', 'l']
  | _, JVal.nan => ['n', 'u', 'l', 'l']
  | _, JVal.bool true => ['t', 'r', 'u', 'e']
  | _, JVal.bool false => ['f', 'a', 'l', 's', 'e']
  | _, JVal.num n => renderInt n
  | _, JVal.str s => renderString s
  | _, JVal.arr [] => ['[', ']']
  | d, JVal.arr (x :: xs) =>
    '[' :: '\n' :: (renderItems (d + 1) x xs ++ '\n' :: (spaces (4 * d) ++ [']']))
  | _, JVal.obj [] => ['\x7b', '\x7d']
  | d, JVal.obj (kv :: kvs) =>
    '\x7b' :: '\n' :: (renderMembers (d + 1) kv kvs ++ '\n' :: (spaces (4 * d) ++ ['\x7d']))
  termination_by _ v => sizeOf v
  decreasing_by
    all_goals simp
    all_goals omega

/-- The comma-newline separated items of a non-empty array, each on its own
indented line. -/
def renderItems : Nat → JVal → List JVal → List Char
  | d, x, [] => spaces (4 * d) ++ renderVal d x
  | d, x, y :: ys =>
    spaces (4 * d) ++ renderVal d x ++ ',' :: '\n' :: renderItems d y ys
  termination_by _ x xs => sizeOf x + sizeOf xs
  decreasing_by
    all_goals simp
    all_goals omega

/-- The comma-newline separated members of a non-empty object. -/
def renderMembers : Nat → String × JVal → List (String × JVal) → List Char
  | d, (k, v), [] => spaces (4 * d) ++ renderString k ++ ':' :: ' ' :: renderVal d v
  | d, (k, v), kv2 :: kvs =>
    spaces (4 * d) ++ renderString k ++ ':' :: ' ' :: renderVal d v ++
      ',' :: '\n' :: renderMembers d kv2 kvs
  termination_by _ kv kvs => sizeOf kv + sizeOf kvs
  decreasing_by
    all_goals simp
    all_goals omega

end

/-- `JSON.stringify(v, null, 4)`: what `fs.writeFile` persists at line 167. -/
def stringifyPretty (v : JVal) : String := String.mk (renderVal 0 v)

mutual

/-- No `NaN` inside the value; `JSON.parse` output is always NaN-free. -/
def nanFree : JVal → Bool
  | JVal.null => true
  | JVal.nan => false
  | JVal.bool _ => true
  | JVal.num _ => true
  | JVal.str _ => true
  | JVal.arr xs => nanFreeItems xs
  | JVal.obj kvs => nanFreeMembers kvs
  termination_by v => sizeOf v
  decreasing_by
    all_goals simp

/-- `nanFree` on every element of an array. -/
def nanFreeItems : List JVal → Bool
  | [] => true
  | x :: xs => nanFree x && nanFreeItems xs
  termination_by xs => sizeOf xs
  decreasing_by
    all_goals simp
    all_goals omega

/-- `nanFree` on every member value of an object. -/
def nanFreeMembers : List (String × JVal) → Bool
  | [] => true
  | (_, v) :: kvs => nanFree v && nanFreeMembers kvs
  termination_by kvs => sizeOf kvs
  decreasing_by
    all_goals simp
    all_goals omega

end

/-- The continuation handed to the number parser must not begin with a digit;
every JSON context after a number (comma, newline, closing bracket, closing
brace, end of input) satisfies this. -/
def HeadNotDigit (cs : List Char) : Prop :=
  ∀ c t, cs = c :: t → c.isDigit = false

/-! ## Object operation lemmas -/

theorem objLookup_objSet_self (o : List (String × JVal)) (k : String) (v : JVal) :
    objLookup (objSet o k v) k = some v := by
  induction o with
  | nil => simp [objSet, objLookup]
  | cons kv rest ih =>
    obtain ⟨k', v'⟩ := kv
    by_cases h : k' = k
    · simp [objSet, objLookup, h]
    · simp [objSet, objLookup, h, ih]

theorem objLookup_objSet_ne (o : List (String × JVal)) (k k' : String) (v : JVal)
    (h : k' ≠ k) : objLookup (objSet o k' v) k = objLookup o k := by
  induction o with
  | nil => simp [objSet, objLookup, h]
  | cons kv rest ih =>
    obtain ⟨k0, v0⟩ := kv
    by_cases h0 : k0 = k'
    · subst h0
      simp [objSet, objLookup, h]
    · simp [objSet, objLookup, h0, ih]

theorem objLookup_eq_none_of_not_mem (src : List (String × JVal)) (k : String)
    (h : k ∉ src.map Prod.fst) : objLookup src k = none := by
  induction src with
  | nil => simp [objLookup]
  | cons kv rest ih =>
    obtain ⟨k0, v0⟩ := kv
    simp only [List.map_cons, List.mem_cons] at h
    push_neg at h
    have hne : k0 ≠ k := fun hh => h.1 hh.symm
    simp [objLookup, hne, ih h.2]

theorem spread_lookup_of_none (src : List (String × JVal)) (k : String) :
    ∀ init, objLookup src k = none →
      objLookup (spreadInto init src) k = objLookup init k := by
  induction src with
  | nil => intro init _; simp [spreadInto]
  | cons kv rest ih =>
    intro init h
    obtain ⟨k0, v0⟩ := kv
    by_cases h0 : k0 = k
    · simp [objLookup, h0] at h
    · simp only [objLookup, h0, if_false] at h
      show objLookup (spreadInto (objSet init k0 v0) rest) k = _
      rw [ih (objSet init k0 v0) h, objLookup_objSet_ne _ _ _ _ h0]

theorem spread_lookup_of_some (src : List (String × JVal)) (k : String) (v : JVal) :
    ∀ init, (src.map Prod.fst).Nodup → objLookup src k = some v →
      objLookup (spreadInto init src) k = some v := by
  induction src with
  | nil => intro init _ h; simp [objLookup] at h
  | cons kv rest ih =>
    intro init hnd h
    obtain ⟨k0, v0⟩ := kv
    simp only [List.map_cons, List.nodup_cons] at hnd
    by_cases h0 : k0 = k
    · subst h0
      simp only [objLookup, eq_self_iff_true, if_true, Option.some.injEq] at h
      subst h
      show objLookup (spreadInto (objSet init k0 v0) rest) k0 = some v0
      rw [spread_lookup_of_none rest k0 _
            (objLookup_eq_none_of_not_mem rest k0 hnd.1),
          objLookup_objSet_self]
    · simp only [objLookup, h0, if_false] at h
      exact ih (objSet init k0 v0) hnd.2 h

/-! ## Lemmas about the constructed record -/

theorem newUser_role (nid : Option Int) (body : List (String × JVal)) :
    objLookup (newUser nid body) "role" =
      some (jsOr (objLookup body "role") defaultRole) := by
  unfold newUser
  exact objLookup_objSet_self _ _ _

theorem newUser_id_of_absent (nid : Option Int) (body : List (String × JVal))
    (h : objLookup body "id" = none) :
    objLookup (newUser nid body) "id" = some (idValue nid) := by
  unfold newUser
  rw [objLookup_objSet_ne _ _ _ _ (by decide : ("role" : String) ≠ "id"),
      spread_lookup_of_none body "id" _ h]
  simp [objLookup]

theorem newUser_id_of_present (nid : Option Int) (body : List (String × JVal))
    (v : JVal) (hnd : (body.map Prod.fst).Nodup)
    (h : objLookup body "id" = some v) :
    objLookup (newUser nid body) "id" = some v := by
  unfold newUser
  rw [objLookup_objSet_ne _ _ _ _ (by decide : ("role" : String) ≠ "id"),
      spread_lookup_of_some body "id" v _ hnd h]

/-! ## Max and next-id lemmas -/

theorem mathMax_cons_cons (x y : Option Int) (ys : List (Option Int)) :
    mathMax (x :: y :: ys) =
      match x, mathMax (y :: ys) with
      | some a, some b => some (max a b)
      | _, _ => none := rfl

theorem mathMax_ints (l : List (Option Int)) (hne : l ≠ [])
    (h : ∀ x ∈ l, ∃ k : Int, x = some k) :
    ∃ m : Int, mathMax l = some m ∧ some m ∈ l ∧
      ∀ k : Int, some k ∈ l → k ≤ m := by
  induction l with
  | nil => cases hne rfl
  | cons x xs ih =>
    cases xs with
    | nil =>
      obtain ⟨k, rfl⟩ := h x (by simp)
      exact ⟨k, rfl, by simp, by simp⟩
    | cons y ys =>
      obtain ⟨a, rfl⟩ := h x (by simp)
      obtain ⟨m, hm, hmem, hub⟩ := ih (by simp) (fun z hz => h z (by simp [hz]))
      refine ⟨max a m, ?_, ?_, ?_⟩
      · rw [mathMax_cons_cons, hm]
      · rcases max_cases a m with ⟨hmax, _⟩ | ⟨hmax, _⟩
        · rw [hmax]; exact List.mem_cons_self _ _
        · rw [hmax]; exact List.mem_cons_of_mem _ hmem
      · intro k hk
        rcases List.mem_cons.mp hk with hk | hk
        · cases Option.some.inj hk; exact le_max_left _ _
        · exact le_trans (hub k hk) (le_max_right a m)

theorem nextId_nil : nextId [] = some 1 := rfl

theorem nextId_intIds (users : List JVal) (hne : users ≠ [])
    (hint : IntIds users) :
    ∃ m : Int, nextId users = some (m + 1) ∧
      (∃ u ∈ users, getField u "id" = some (JVal.num m)) ∧
      ∀ u ∈ users, ∀ k : Int, getField u "id" = some (JVal.num k) → k ≤ m := by
  have hmap : ∀ x ∈ users.map (fun u => jsToNumber (getField u "id")),
      ∃ k : Int, x = some k := by
    intro x hx
    obtain ⟨u, hu, rfl⟩ := List.mem_map.mp hx
    obtain ⟨k, hk⟩ := hint u hu
    exact ⟨k, by rw [hk]; rfl⟩
  obtain ⟨m, hm, hmem, hub⟩ := mathMax_ints _ (by simpa using hne) hmap
  refine ⟨m, ?_, ?_, ?_⟩
  · unfold nextId
    rw [if_pos (by cases users with
          | nil => exact absurd rfl hne
          | cons a l => simp), hm]
    rfl
  · obtain ⟨u, hu, hequ⟩ := List.mem_map.mp hmem
    obtain ⟨k, hk⟩ := hint u hu
    refine ⟨u, hu, ?_⟩
    rw [hk] at hequ ⊢
    simp only [jsToNumber, Option.some.injEq] at hequ
    rw [hequ]
  · intro u hu k hk
    exact hub k (List.mem_map.mpr ⟨u, hu, by rw [hk]; rfl⟩)

/-! ## Claim C1 -/

/-- Claim C1 counterexample: in `{ id: nextId, ...req.body, role: ... }` the
spread of the caller's fields comes after `id: nextId`, so a caller-supplied
`id` overrides `nextId`: posting `{id: 999}` to an empty collection (whose
`nextId` is 1) persists a record whose id is 999, not 1. -/
theorem c1_counterexample :
    nextId [] = some 1 ∧
    postUsers (some "[]") [("id", JVal.num 999)] true =
      PostResult.created201 [("id", JVal.num 999), ("role", JVal.str "peasant")]
        [JVal.obj [("id", JVal.num 999), ("role", JVal.str "peasant")]] ∧
    objLookup [("id", JVal.num 999), ("role", JVal.str "peasant")] "id" ≠
      some (JVal.num 1) := by
  refine ⟨rfl, rfl, ?_⟩
  intro h
  have h2 : JVal.num 999 = JVal.num 1 := Option.some.inj h
  injection h2 with h2
  omega

/-- Claim C1 (amended): a successful create constructs exactly
`newUser (nextId users) body` and appends it; its `id` field equals `nextId`
precisely when the caller's fields omit `id`, and otherwise the
caller-supplied `id` value takes precedence over `nextId`. -/
theorem c1_amended (s : String) (body : List (String × JVal)) (users : List JVal)
    (hp : parseJson s = some (JVal.arr users))
    (hnd : (body.map Prod.fst).Nodup) :
    postUsers (some s) body true =
      PostResult.created201 (newUser (nextId users) body)
        (users ++ [JVal.obj (newUser (nextId users) body)]) ∧
    (objLookup body "id" = none →
      objLookup (newUser (nextId users) body) "id" =
        some (idValue (nextId users))) ∧
    ∀ v, objLookup body "id" = some v →
      objLookup (newUser (nextId users) body) "id" = some v := by
  refine ⟨?_, ?_, ?_⟩
  · simp [postUsers, hp]
  · exact newUser_id_of_absent _ _
  · exact fun v hv => newUser_id_of_present _ _ v hnd hv

/-- Witness for C1 (amended) at a concrete input. -/
theorem c1_amended_witness :
    postUsers (some "[]") [("name", JVal.str "John")] true =
      PostResult.created201 (newUser (nextId []) [("name", JVal.str "John")])
        ([] ++ [JVal.obj (newUser (nextId []) [("name", JVal.str "John")])]) ∧
    (objLookup [("name", JVal.str "John")] "id" = none →
      objLookup (newUser (nextId []) [("name", JVal.str "John")]) "id" =
        some (idValue (nextId []))) ∧
    ∀ v, objLookup [("name", JVal.str "John")] "id" = some v →
      objLookup (newUser (nextId []) [("name", JVal.str "John")]) "id" = some v :=
  c1_amended "[]" [("name", JVal.str "John")] [] rfl (by simp)

/-! ## Claim C2 -/

/-- Claim C2: when every record of the loaded collection carries an integer
id, the id computed for the new record is 1 on an empty collection and
`max (existing ids) + 1` on a non-empty one. -/
theorem c2_nextId (users : List JVal) (hint : IntIds users) :
    (users = [] → nextId users = some 1) ∧
    (users ≠ [] → ∃ m : Int, nextId users = some (m + 1) ∧
      (∃ u ∈ users, getField u "id" = some (JVal.num m)) ∧
      ∀ u ∈ users, ∀ k : Int, getField u "id" = some (JVal.num k) → k ≤ m) := by
  constructor
  · rintro rfl; rfl
  · intro hne; exact nextId_intIds users hne hint

/-- Witness for C2 at a concrete two-record collection. -/
theorem c2_nextId_witness :
    (([JVal.obj [("id", JVal.num 3)], JVal.obj [("id", JVal.num 7)]] :
        List JVal) = [] →
      nextId [JVal.obj [("id", JVal.num 3)], JVal.obj [("id", JVal.num 7)]] =
        some 1) ∧
    ([JVal.obj [("id", JVal.num 3)], JVal.obj [("id", JVal.num 7)]] ≠
        ([] : List JVal) →
      ∃ m : Int,
        nextId [JVal.obj [("id", JVal.num 3)], JVal.obj [("id", JVal.num 7)]] =
          some (m + 1) ∧
        (∃ u ∈ [JVal.obj [("id", JVal.num 3)], JVal.obj [("id", JVal.num 7)]],
          getField u "id" = some (JVal.num m)) ∧
        ∀ u ∈ [JVal.obj [("id", JVal.num 3)], JVal.obj [("id", JVal.num 7)]],
          ∀ k : Int, getField u "id" = some (JVal.num k) → k ≤ m) :=
  c2_nextId [JVal.obj [("id", JVal.num 3)], JVal.obj [("id", JVal.num 7)]]
    (by
      intro u hu
      rcases List.mem_cons.mp hu with rfl | hu
      · exact ⟨3, rfl⟩
      rcases List.mem_cons.mp hu with rfl | hu
      · exact ⟨7, rfl⟩
      · cases hu)

/-! ## Claim C3 -/

/-- Claim C3 counterexample: the default is applied through JavaScript `||`,
so a present but falsy `role` (here the empty string) is overridden by the
default, contradicting "applied only when the role field is absent". -/
theorem c3_counterexample :
    objLookup [("role", JVal.str "")] "role" = some (JVal.str "") ∧
    postUsers (some "[]") [("role", JVal.str "")] true =
      PostResult.created201 [("id", JVal.num 1), ("role", JVal.str "peasant")]
        [JVal.obj [("id", JVal.num 1), ("role", JVal.str "peasant")]] ∧
    JVal.str "" ≠ JVal.str "peasant" := by
  refine ⟨rfl, rfl, ?_⟩
  intro h
  injection h with h
  exact absurd h (by decide)

/-- Claim C3 (amended): the constructed record's `role` is the caller's value
when that value is present and truthy, and the default `"peasant"` when the
caller's `role` is absent or falsy. -/
theorem c3_amended (nid : Option Int) (body : List (String × JVal)) :
    (∀ v, objLookup body "role" = some v → truthy v = true →
      objLookup (newUser nid body) "role" = some v) ∧
    ((objLookup body "role" = none ∨
        ∃ v, objLookup body "role" = some v ∧ truthy v = false) →
      objLookup (newUser nid body) "role" = some (JVal.str "peasant")) := by
  constructor
  · intro v hv htr
    rw [newUser_role, hv]
    simp [jsOr, htr]
  · intro h
    rw [newUser_role]
    rcases h with h | ⟨v, hv, htr⟩
    · rw [h]; rfl
    · rw [hv]; simp [jsOr, htr, defaultRole]

/-- Witness for C3 (amended) at a concrete body carrying a truthy role. -/
theorem c3_amended_witness :
    (∀ v, objLookup [("role", JVal.str "boss")] "role" = some v →
      truthy v = true →
      objLookup (newUser (some 1) [("role", JVal.str "boss")]) "role" = some v) ∧
    ((objLookup [("role", JVal.str "boss")] "role" = none ∨
        ∃ v, objLookup [("role", JVal.str "boss")] "role" = some v ∧
          truthy v = false) →
      objLookup (newUser (some 1) [("role", JVal.str "boss")]) "role" =
        some (JVal.str "peasant")) :=
  c3_amended (some 1) [("role", JVal.str "boss")]

/-! ## Claim C7 -/

/-- Claim C7: when the write fails, `POST /users` answers 500 and never
reports the constructed record as a success, because the 201 response is
sent only after `fs.writeFile` resolves. -/
theorem c7_write_failure (file : Option String) (body : List (String × JVal)) :
    postUsers file body false = PostResult.error500 ∧
    ∀ nu saved, postUsers file body false ≠ PostResult.created201 nu saved := by
  have h : postUsers file body false = PostResult.error500 := by
    cases file with
    | none => rfl
    | some data =>
      rcases hpd : parseJson data with _ | v
      · simp [postUsers, hpd]
      · cases v <;> simp [postUsers, hpd]
  exact ⟨h, fun nu saved hc => by rw [h] at hc; exact PostResult.noConfusion hc⟩

/-! ## Claim C4 -/

/-- Claim C4 counterexample: with an arbitrary caller-supplied fields object
the uniqueness invariant breaks in one step, because a caller-supplied `id`
overrides `nextId`: posting `{id: 1}` to the collection `[{id: 1}]` persists
two records with id 1. -/
theorem c4_counterexample :
    DistinctIds [JVal.obj [("id", JVal.num 1)]] ∧
    postUsers (some "[\x7b\"id\": 1\x7d]") [("id", JVal.num 1)] true =
      PostResult.created201 [("id", JVal.num 1), ("role", JVal.str "peasant")]
        [JVal.obj [("id", JVal.num 1)],
         JVal.obj [("id", JVal.num 1), ("role", JVal.str "peasant")]] ∧
    ¬ DistinctIds [JVal.obj [("id", JVal.num 1)],
         JVal.obj [("id", JVal.num 1), ("role", JVal.str "peasant")]] := by
  refine ⟨?_, rfl, ?_⟩
  · unfold DistinctIds
    simp
  · intro h
    have h2 : ([some (JVal.num 1), some (JVal.num 1)] :
        List (Option JVal)).Pairwise (· ≠ ·) := h
    exact (List.pairwise_cons.mp h2).1 (some (JVal.num 1)) (by simp) rfl

theorem createStep_preserves (users : List JVal) (body : List (String × JVal))
    (hint : IntIds users) (hdist : DistinctIds users)
    (hid : objLookup body "id" = none) :
    IntIds (createStep users body) ∧ DistinctIds (createStep users body) := by
  rcases eq_or_ne users [] with rfl | hne
  · have hidnew : getField (JVal.obj (newUser (nextId []) body)) "id" =
        some (JVal.num 1) := by
      show objLookup (newUser (nextId []) body) "id" = some (JVal.num 1)
      rw [newUser_id_of_absent _ _ hid]
      rfl
    constructor
    · intro u hu
      simp only [createStep, List.nil_append, List.mem_singleton] at hu
      subst hu
      exact ⟨1, hidnew⟩
    · show DistinctIds [JVal.obj (newUser (nextId []) body)]
      unfold DistinctIds
      simp
  · obtain ⟨m, hm, _, hub⟩ := nextId_intIds users hne hint
    have hidnew : getField (JVal.obj (newUser (nextId users) body)) "id" =
        some (JVal.num (m + 1)) := by
      show objLookup (newUser (nextId users) body) "id" = _
      rw [newUser_id_of_absent _ _ hid, hm]
      rfl
    constructor
    · intro u hu
      rcases List.mem_append.mp hu with hu | hu
      · exact hint u hu
      · rw [List.mem_singleton] at hu
        subst hu
        exact ⟨m + 1, hidnew⟩
    · unfold DistinctIds createStep
      rw [List.map_append, List.pairwise_append]
      refine ⟨hdist, by simp, ?_⟩
      intro a ha b hb
      simp only [List.map_cons, List.map_nil, List.mem_singleton] at hb
      subst hb
      obtain ⟨u, hu, rfl⟩ := List.mem_map.mp ha
      obtain ⟨k, hk⟩ := hint u hu
      rw [hk, hidnew]
      intro hcontra
      have hkm : k = m + 1 := by
        have h2 := Option.some.inj hcontra
        injection h2
      exact absurd (hub u hu k hk) (by omega)

/-- Claim C4 (amended): a sequential history of creates preserves
pairwise-distinct integer ids provided no caller-supplied fields object
carries an `id` key (the counterexample shows the restriction is needed). -/
theorem c4_amended (users : List JVal) (bodies : List (List (String × JVal)))
    (hint : IntIds users) (hdist : DistinctIds users)
    (hb : ∀ b ∈ bodies, objLookup b "id" = none) :
    IntIds (runCreates users bodies) ∧ DistinctIds (runCreates users bodies) := by
  induction bodies generalizing users with
  | nil => exact ⟨hint, hdist⟩
  | cons b bs ih =>
    have hstep := createStep_preserves users b hint hdist (hb b (by simp))
    exact ih (createStep users b) hstep.1 hstep.2
      (fun b' hb' => hb b' (by simp [hb']))

/-- Witness for C4 (amended): one create on a one-record collection. -/
theorem c4_amended_witness :
    IntIds (runCreates [JVal.obj [("id", JVal.num 1)]]
      [[("name", JVal.str "A")]]) ∧
    DistinctIds (runCreates [JVal.obj [("id", JVal.num 1)]]
      [[("name", JVal.str "A")]]) :=
  c4_amended [JVal.obj [("id", JVal.num 1)]] [[("name", JVal.str "A")]]
    (by
      intro u hu
      rw [List.mem_singleton] at hu
      subst hu
      exact ⟨1, rfl⟩)
    (by unfold DistinctIds; simp)
    (by
      intro b hb
      rw [List.mem_singleton] at hb
      subst hb
      rfl)

/-! ## Claim C8 -/

/-- Claim C8: a successful create persists exactly the loaded records with
the single new record appended at the end: every prior record is unchanged
and the relative order of prior records is preserved. -/
theorem c8_append (s : String) (body : List (String × JVal)) (users : List JVal)
    (hp : parseJson s = some (JVal.arr users)) :
    ∃ nu, postUsers (some s) body true =
        PostResult.created201 nu (users ++ [JVal.obj nu]) ∧
      (users ++ [JVal.obj nu]).take users.length = users ∧
      (users ++ [JVal.obj nu]).length = users.length + 1 := by
  refine ⟨newUser (nextId users) body, ?_, ?_, ?_⟩
  · simp [postUsers, hp]
  · simp
  · simp

/-- Witness for C8 on the empty collection. -/
theorem c8_append_witness :
    ∃ nu, postUsers (some "[]") [("name", JVal.str "B")] true =
        PostResult.created201 nu ([] ++ [JVal.obj nu]) ∧
      (([] : List JVal) ++ [JVal.obj nu]).take ([] : List JVal).length = [] ∧
      (([] : List JVal) ++ [JVal.obj nu]).length = ([] : List JVal).length + 1 :=
  c8_append "[]" [("name", JVal.str "B")] [] rfl

/-! ## Claim C5 -/

/-- Claim C5 counterexample: the file content `0` is valid JSON and is parsed
successfully, yet GET /users answers 500, because `readJsonFile` signals
failure with `null` and the handler can only test truthiness, which also
rejects the valid falsy values `0`, `null`, `false` and the empty string. -/
theorem c5_counterexample :
    parseJson "0" = some (JVal.num 0) ∧
    readJsonFile (some "0") = JVal.num 0 ∧
    getUsers (some "0") = GetAllResult.error500 :=
  ⟨rfl, rfl, rfl⟩

/-- Claim C5 (amended): GET /users fails exactly when the file is missing,
unreadable or not valid JSON, or when it parses to a falsy value; on a file
parsing to a truthy value it succeeds and returns the parsed value. A failure
is always surfaced as a 500, never as an empty collection. -/
theorem c5_amended (file : Option String) :
    (getUsers file = GetAllResult.error500 ↔
      (Option.bind file parseJson = none ∨
        ∃ v, Option.bind file parseJson = some v ∧ truthy v = false)) ∧
    (∀ w, getUsers file = GetAllResult.ok w ↔
      (Option.bind file parseJson = some w ∧ truthy w = true)) := by
  cases file with
  | none =>
    constructor
    · constructor
      · intro _
        exact Or.inl rfl
      · intro _
        rfl
    · intro w
      constructor
      · intro h
        exact absurd h (by simp [getUsers, readJsonFile, truthy])
      · rintro ⟨h, -⟩
        exact absurd h (by simp)
  | some s =>
    rcases hp : parseJson s with _ | v
    · have hread : readJsonFile (some s) = JVal.null := by
        simp [readJsonFile, hp]
      have hget : getUsers (some s) = GetAllResult.error500 := by
        simp [getUsers, hread, truthy]
      have hbind : Option.bind (some s) parseJson = none := hp
      constructor
      · simp [hget, hbind]
      · intro w
        simp [hget, hbind]
    · have hread : readJsonFile (some s) = v := by
        simp [readJsonFile, hp]
      have hbind : Option.bind (some s) parseJson = some v := hp
      by_cases ht : truthy v
      · have hget : getUsers (some s) = GetAllResult.ok v := by
          simp [getUsers, hread, ht]
        constructor
        · rw [hget, hbind]
          constructor
          · intro h
            exact absurd h (by simp)
          · rintro (h | ⟨w, hw, hwf⟩)
            · exact absurd h (by simp)
            · rw [Option.some.inj hw] at ht
              rw [ht] at hwf
              exact absurd hwf (by simp)
        · intro w
          rw [hget, hbind]
          constructor
          · intro h
            have hvw := GetAllResult.ok.inj h
            subst hvw
            exact ⟨rfl, ht⟩
          · rintro ⟨hw, -⟩
            rw [Option.some.inj hw]
      · have hget : getUsers (some s) = GetAllResult.error500 := by
          simp [getUsers, hread, ht]
        constructor
        · rw [hget, hbind]
          constructor
          · intro _
            exact Or.inr ⟨v, rfl, by simpa using ht⟩
          · intro _
            rfl
        · intro w
          rw [hget, hbind]
          constructor
          · intro h
            exact absurd h (by simp)
          · rintro ⟨hw, hwt⟩
            rw [← Option.some.inj hw] at hwt
            exact absurd hwt (by simpa using ht)

/-! ## Claim C6 -/

theorem find_none_iff {α : Type} (p : α → Bool) (l : List α) :
    l.find? p = none ↔ ∀ x ∈ l, p x = false := by
  induction l with
  | nil => simp
  | cons a l ih =>
    by_cases hp : p a
    · simp [List.find?, hp]
    · simp only [Bool.not_eq_true] at hp
      simp [List.find?, hp, ih]

theorem find_some_iff_first {α : Type} (p : α → Bool) (l : List α) (a : α) :
    l.find? p = some a ↔
      ∃ l1 l2, l = l1 ++ a :: l2 ∧ p a = true ∧ ∀ x ∈ l1, p x = false := by
  induction l with
  | nil =>
    constructor
    · intro h
      cases h
    · rintro ⟨l1, l2, hl, -, -⟩
      exact absurd hl (by simp)
  | cons b l ih =>
    by_cases hp : p b
    · simp only [List.find?, hp, Option.some.injEq]
      constructor
      · rintro rfl
        exact ⟨[], l, rfl, hp, by simp⟩
      · rintro ⟨l1, l2, hl, hpa, hfirst⟩
        cases l1 with
        | nil =>
          exact (List.cons.inj hl).1
        | cons c l1 =>
          have hbc := (List.cons.inj hl).1
          subst hbc
          exact absurd hp (by simp [hfirst b (by simp)])
    · simp only [Bool.not_eq_true] at hp
      simp only [List.find?, hp, ih]
      constructor
      · rintro ⟨l1, l2, rfl, hpa, hfirst⟩
        exact ⟨b :: l1, l2, rfl, hpa, by
          intro x hx
          rcases List.mem_cons.mp hx with rfl | hx
          · exact hp
          · exact hfirst x hx⟩
      · rintro ⟨l1, l2, hl, hpa, hfirst⟩
        cases l1 with
        | nil =>
          have hba := (List.cons.inj hl).1
          subst hba
          rw [hpa] at hp
          cases hp
        | cons c l1 =>
          have hbc := (List.cons.inj hl).1
          subst hbc
          exact ⟨l1, l2, (List.cons.inj hl).2, hpa,
            fun x hx => hfirst x (by simp [hx])⟩

/-- Claim C6: on a file that loads as a collection, GET /api/users/:id
returns the first record whose id strictly equals the parsed id; answers 404
exactly when no record matches; and answers 500 when (and only when) the load
failed — the three outcomes are mutually exclusive and no other outcome
(including the crash path for truthy non-array data) is reachable. -/
theorem c6_getById (file : Option String) (idStr : String) :
    (Option.bind file parseJson = none →
      getUserById file idStr = GetByIdResult.error500) ∧
    ∀ users, Option.bind file parseJson = some (JVal.arr users) →
      ((∀ u, getUserById file idStr = GetByIdResult.ok u ↔
          ∃ l1 l2, users = l1 ++ u :: l2 ∧
            idEquals (jsParseInt idStr) u = true ∧
            ∀ x ∈ l1, idEquals (jsParseInt idStr) x = false) ∧
       (getUserById file idStr = GetByIdResult.notFound404 ↔
          ∀ u ∈ users, idEquals (jsParseInt idStr) u = false) ∧
       getUserById file idStr ≠ GetByIdResult.error500 ∧
       getUserById file idStr ≠ GetByIdResult.crash) := by
  constructor
  · intro hnone
    cases file with
    | none => rfl
    | some s =>
      have hp : parseJson s = none := hnone
      simp [getUserById, readJsonFile, hp, truthy]
  · intro users hsome
    have hfile : ∃ s, file = some s := by
      cases file with
      | none => cases hsome
      | some s => exact ⟨s, rfl⟩
    obtain ⟨s, rfl⟩ := hfile
    have hp : parseJson s = some (JVal.arr users) := hsome
    have hget : getUserById (some s) idStr =
        match users.find? (idEquals (jsParseInt idStr)) with
        | some u => GetByIdResult.ok u
        | none => GetByIdResult.notFound404 := by
      simp [getUserById, readJsonFile, hp, truthy]
    rcases hf : users.find? (idEquals (jsParseInt idStr)) with _ | u0
    · rw [hf] at hget
      refine ⟨?_, ?_, ?_, ?_⟩
      · intro u
        rw [hget]
        constructor
        · intro h
          cases h
        · rintro ⟨l1, l2, rfl, hpa, hfirst⟩
          have := (find_none_iff _ _).mp hf u (by simp)
          rw [hpa] at this
          cases this
      · rw [hget]
        simp only [true_iff]
        exact (find_none_iff _ _).mp hf
      · rw [hget]
        intro h
        cases h
      · rw [hget]
        intro h
        cases h
    · rw [hf] at hget
      refine ⟨?_, ?_, ?_, ?_⟩
      · intro u
        rw [hget]
        constructor
        · intro h
          have hu := GetByIdResult.ok.inj h
          subst hu
          exact (find_some_iff_first _ _ _).mp hf
        · intro h
          have : users.find? (idEquals (jsParseInt idStr)) = some u :=
            (find_some_iff_first _ _ _).mpr h
          rw [hf] at this
          rw [Option.some.inj this]
      · rw [hget]
        constructor
        · intro h
          cases h
        · intro hall
          have := (find_none_iff _ _).mpr hall
          rw [hf] at this
          cases this
      · rw [hget]
        intro h
        cases h
      · rw [hget]
        intro h
        cases h

/-! ## Claim C10 -/

/-- Claim C10: when the `:id` path parameter does not parse as a decimal
integer (`parseInt` yields `NaN`), GET /api/users/:id on a successfully
loaded collection answers 404, because strict equality with `NaN` never
holds; it neither answers 500 nor raises. -/
theorem c10_nan_id (file : Option String) (idStr : String) (users : List JVal)
    (hnan : jsParseInt idStr = none)
    (hp : Option.bind file parseJson = some (JVal.arr users)) :
    getUserById file idStr = GetByIdResult.notFound404 := by
  have hfile : ∃ s, file = some s := by
    cases file with
    | none => cases hp
    | some s => exact ⟨s, rfl⟩
  obtain ⟨s, rfl⟩ := hfile
  have hps : parseJson s = some (JVal.arr users) := hp
  have hfind : users.find? (idEquals (jsParseInt idStr)) = none := by
    apply (find_none_iff _ _).mpr
    intro u _
    rw [hnan]
    unfold idEquals
    rcases getField u "id" with _ | w
    · rfl
    · cases w <;> rfl
  simp [getUserById, readJsonFile, hps, truthy, hfind]

/-- Witness for C10 at the path parameter "abc" on the empty collection. -/
theorem c10_nan_id_witness :
    getUserById (some "[]") "abc" = GetByIdResult.notFound404 :=
  c10_nan_id (some "[]") "abc" [] rfl rfl

/-- Witness for C5 (amended) at a concrete file. -/
theorem c5_amended_witness :
    (getUsers (some "[]") = GetAllResult.error500 ↔
      (Option.bind (some "[]") parseJson = none ∨
        ∃ v, Option.bind (some "[]") parseJson = some v ∧ truthy v = false)) ∧
    (∀ w, getUsers (some "[]") = GetAllResult.ok w ↔
      (Option.bind (some "[]") parseJson = some w ∧ truthy w = true)) :=
  c5_amended (some "[]")

/-- Witness for C6 at a concrete file and path parameter. -/
theorem c6_getById_witness :
    (Option.bind (some "[]") parseJson = none →
      getUserById (some "[]") "1" = GetByIdResult.error500) ∧
    ∀ users, Option.bind (some "[]") parseJson = some (JVal.arr users) →
      ((∀ u, getUserById (some "[]") "1" = GetByIdResult.ok u ↔
          ∃ l1 l2, users = l1 ++ u :: l2 ∧
            idEquals (jsParseInt "1") u = true ∧
            ∀ x ∈ l1, idEquals (jsParseInt "1") x = false) ∧
       (getUserById (some "[]") "1" = GetByIdResult.notFound404 ↔
          ∀ u ∈ users, idEquals (jsParseInt "1") u = false) ∧
       getUserById (some "[]") "1" ≠ GetByIdResult.error500 ∧
       getUserById (some "[]") "1" ≠ GetByIdResult.crash) :=
  c6_getById (some "[]") "1"

/-- Witness for C7 at a concrete file and body. -/
theorem c7_write_failure_witness :
    postUsers (some "[]") [] false = PostResult.error500 ∧
    ∀ nu saved, postUsers (some "[]") [] false ≠
      PostResult.created201 nu saved :=
  c7_write_failure (some "[]") []

/-! ## Whitespace lemmas -/

theorem wsOnly_spaces (n : Nat) : wsOnly (spaces n) := by
  intro c hc
  rw [List.eq_of_mem_replicate hc]
  rfl

theorem wsOnly_cons (c : Char) (cs : List Char) (hc : isWs c = true)
    (h : wsOnly cs) : wsOnly (c :: cs) := by
  intro x hx
  rcases List.mem_cons.mp hx with rfl | hx
  · exact hc
  · exact h x hx

theorem wsOnly_append (l1 l2 : List Char) (h1 : wsOnly l1) (h2 : wsOnly l2) :
    wsOnly (l1 ++ l2) := by
  intro x hx
  rcases List.mem_append.mp hx with hx | hx
  · exact h1 x hx
  · exact h2 x hx

theorem skipWs_ws_append (ws : List Char) (h : wsOnly ws) (cs : List Char) :
    skipWs (ws ++ cs) = skipWs cs := by
  induction ws with
  | nil => rfl
  | cons c ws ih =>
    have hc : isWs c = true := h c (by simp)
    show skipWs (c :: (ws ++ cs)) = _
    rw [skipWs, List.dropWhile_cons, if_pos hc]
    exact ih (fun x hx => h x (by simp [hx]))

theorem skipWs_cons_not_ws (c : Char) (cs : List Char) (h : isWs c = false) :
    skipWs (c :: cs) = c :: cs := by
  rw [skipWs, List.dropWhile_cons, if_neg (by simp [h])]

theorem isWs_not_digit (c : Char) (h : isWs c = true) : c.isDigit = false := by
  have hd : c = ' ' ∨ c = '\n' ∨ c = '\t' ∨ c = '\r' := by
    simpa [isWs, or_assoc] using h
  rcases hd with rfl | rfl | rfl | rfl <;> rfl

theorem headNotDigit_cons (c : Char) (h : c.isDigit = false) (cs : List Char) :
    HeadNotDigit (c :: cs) := by
  intro c' t' heq
  rw [(List.cons.inj heq).1] at h
  exact h

theorem headNotDigit_nil : HeadNotDigit [] := by
  intro c t h
  cases h

theorem headNotDigit_ws_append (ws2 : List Char) (h : wsOnly ws2) (c : Char)
    (hc : c.isDigit = false) (rest : List Char) :
    HeadNotDigit (ws2 ++ c :: rest) := by
  cases ws2 with
  | nil => exact headNotDigit_cons c hc rest
  | cons a l =>
    exact headNotDigit_cons a (isWs_not_digit a (h a (by simp))) _

/-! ## Decimal rendering lemmas -/

theorem digitChar_isDigit (d : Nat) (h : d < 10) : (digitChar d).isDigit = true := by
  interval_cases d <;> rfl

theorem digitChar_val (d : Nat) (h : d < 10) : (digitChar d).toNat - 48 = d := by
  interval_cases d <;> rfl

theorem renderNat_digits (n : Nat) : ∀ c ∈ renderNat n, c.isDigit = true := by
  intro c hc
  unfold renderNat at hc
  by_cases h0 : n = 0
  · rw [if_pos h0] at hc
    rw [List.mem_singleton.mp hc]
    rfl
  · rw [if_neg h0] at hc
    rw [List.mem_reverse] at hc
    obtain ⟨d, hd, rfl⟩ := List.mem_map.mp hc
    exact digitChar_isDigit d (Nat.digits_lt_base (by norm_num) hd)

theorem renderNat_ne_nil (n : Nat) : renderNat n ≠ [] := by
  unfold renderNat
  by_cases h0 : n = 0
  · rw [if_pos h0]
    simp
  · rw [if_neg h0]
    simp [Nat.digits_ne_nil_iff_ne_zero, h0]

theorem renderNat_cons (n : Nat) :
    ∃ c t, renderNat n = c :: t ∧ c.isDigit = true := by
  rcases hr : renderNat n with _ | ⟨c, t⟩
  · exact absurd hr (renderNat_ne_nil n)
  · exact ⟨c, t, rfl, renderNat_digits n c (by rw [hr]; simp)⟩

theorem digitsToNat_append_one (l : List Char) (c : Char) :
    digitsToNat (l ++ [c]) = 10 * digitsToNat l + (c.toNat - 48) := by
  unfold digitsToNat
  rw [List.foldl_append]
  rfl

theorem digitsToNat_render_digits (l : List Nat) (h : ∀ d ∈ l, d < 10) :
    digitsToNat ((l.map digitChar).reverse) = Nat.ofDigits 10 l := by
  induction l with
  | nil => rfl
  | cons d ds ih =>
    rw [List.map_cons, List.reverse_cons, digitsToNat_append_one,
      ih (fun x hx => h x (by simp [hx])), digitChar_val d (h d (by simp)),
      Nat.ofDigits_cons]
    ring

theorem digitsToNat_renderNat (n : Nat) : digitsToNat (renderNat n) = n := by
  unfold renderNat
  by_cases h0 : n = 0
  · rw [if_pos h0, h0]
    rfl
  · rw [if_neg h0,
      digitsToNat_render_digits _ (fun d hd => Nat.digits_lt_base (by norm_num) hd),
      Nat.ofDigits_digits]

/-! ## Number parsing lemmas -/

theorem takeWhile_append_of_all (p : Char → Bool) (l rest : List Char)
    (hl : ∀ c ∈ l, p c = true)
    (hr : ∀ c t, rest = c :: t → p c = false) :
    (l ++ rest).takeWhile p = l ∧ (l ++ rest).dropWhile p = rest := by
  induction l with
  | nil =>
    cases rest with
    | nil => exact ⟨rfl, rfl⟩
    | cons c t =>
      have hc := hr c t rfl
      constructor
      · rw [List.nil_append, List.takeWhile_cons, if_neg (by simp [hc])]
      · rw [List.nil_append, List.dropWhile_cons, if_neg (by simp [hc])]
  | cons c l ih =>
    have hc := hl c (by simp)
    obtain ⟨h1, h2⟩ := ih (fun x hx => hl x (by simp [hx]))
    constructor
    · rw [List.cons_append, List.takeWhile_cons, if_pos hc, h1]
    · rw [List.cons_append, List.dropWhile_cons, if_pos hc, h2]

theorem parseNatNum_render (n : Nat) (rest : List Char) (hr : HeadNotDigit rest) :
    parseNatNum (renderNat n ++ rest) = some (n, rest) := by
  obtain ⟨h1, h2⟩ := takeWhile_append_of_all (fun c => c.isDigit) (renderNat n)
    rest (renderNat_digits n) hr
  unfold parseNatNum
  rw [h1, h2, if_neg (by simp [renderNat_ne_nil n]), digitsToNat_renderNat]

theorem parseNumber_render (n : Int) (rest : List Char) (hr : HeadNotDigit rest) :
    parseNumber (renderInt n ++ rest) = some (JVal.num n, rest) := by
  cases n with
  | ofNat m =>
    obtain ⟨c, t, hct, hcd⟩ := renderNat_cons m
    show parseNumber (renderNat m ++ rest) = _
    rw [hct, List.cons_append, parseNumber,
      if_neg (fun h => by rw [h] at hcd; exact absurd hcd (by decide)),
      ← List.cons_append, ← hct, parseNatNum_render m rest hr]
    rfl
  | negSucc m =>
    show parseNumber ('-' :: (renderNat (m + 1) ++ rest)) = _
    rw [parseNumber, if_pos rfl, parseNatNum_render (m + 1) rest hr]
    show some (JVal.num (-((m : Int) + 1)), rest) = _
    rw [Int.negSucc_eq]

/-! ## String parsing lemmas -/

theorem parseStringBody_step (c : Char) (cs2 acc : List Char) :
    parseStringBody (escapeChar c ++ cs2) acc = parseStringBody cs2 (acc ++ [c]) := by
  by_cases h1 : c = '\"'
  · subst h1; rfl
  by_cases h2 : c = '\\'
  · subst h2; rfl
  by_cases h3 : c = '\n'
  · subst h3; rfl
  by_cases h4 : c = '\t'
  · subst h4; rfl
  by_cases h5 : c = '\r'
  · subst h5; rfl
  by_cases h6 : c = Char.ofNat 8
  · subst h6; rfl
  by_cases h7 : c = Char.ofNat 12
  · subst h7; rfl
  have hesc : escapeChar c = [c] := by
    unfold escapeChar
    rw [if_neg h1, if_neg h2, if_neg h3, if_neg h4, if_neg h5, if_neg h6,
      if_neg h7]
  rw [hesc, List.singleton_append]
  conv_lhs => rw [parseStringBody.eq_def]
  dsimp only
  rw [if_neg h1, if_neg h2]

theorem parseStringBody_render (cs : List Char) :
    ∀ acc rest, parseStringBody (escapeList cs ++ '\"' :: rest) acc =
      some (String.mk (acc ++ cs), rest) := by
  induction cs with
  | nil =>
    intro acc rest
    show parseStringBody ('\"' :: rest) acc = _
    rw [parseStringBody.eq_def]
    simp
  | cons c cs ih =>
    intro acc rest
    rw [show escapeList (c :: cs) = escapeChar c ++ escapeList cs from rfl,
      List.append_assoc, parseStringBody_step, ih]
    rw [List.append_assoc, List.singleton_append]

theorem parseStringBody_renderString (s : String) (rest : List Char) :
    parseStringBody (escapeList s.data ++ '\"' :: rest) [] = some (s, rest) := by
  rw [parseStringBody_render]
  cases s with
  | mk data => rfl

/-! ## Render head and length lemmas -/

theorem isDigit_ne (c : Char) (h : c.isDigit = true) (c' : Char)
    (h' : c'.isDigit = false) : c ≠ c' := by
  intro he
  subst he
  rw [h] at h'
  cases h'

theorem isDigit_not_ws (c : Char) (h : c.isDigit = true) : isWs c = false := by
  by_cases hw : isWs c = true
  · rw [isWs_not_digit c hw] at h
    cases h
  · simpa using hw

theorem renderVal_head (d : Nat) (v : JVal) :
    ∃ c t, renderVal d v = c :: t ∧ isWs c = false ∧ c ≠ ']' ∧ c ≠ '\x7d' := by
  cases v with
  | null => exact ⟨'n', ['u', 'l', 'l'], by simp [renderVal], by decide,
      by decide, by decide⟩
  | nan => exact ⟨'n', ['u', 'l', 'l'], by simp [renderVal], by decide,
      by decide, by decide⟩
  | bool b =>
    cases b with
    | true => exact ⟨'t', ['r', 'u', 'e'], by simp [renderVal], by decide,
        by decide, by decide⟩
    | false => exact ⟨'f', ['a', 'l', 's', 'e'], by simp [renderVal], by decide,
        by decide, by decide⟩
  | num n =>
    cases n with
    | ofNat m =>
      obtain ⟨c, t, hct, hcd⟩ := renderNat_cons m
      exact ⟨c, t, by simp [renderVal, renderInt, hct], isDigit_not_ws c hcd,
        isDigit_ne c hcd ']' (by decide), isDigit_ne c hcd '\x7d' (by decide)⟩
    | negSucc m =>
      exact ⟨'-', renderNat (m + 1), by simp [renderVal, renderInt], by decide,
        by decide, by decide⟩
  | str s =>
    exact ⟨'\"', escapeList s.data ++ ['\"'], by simp [renderVal, renderString],
      by decide, by decide, by decide⟩
  | arr xs =>
    cases xs with
    | nil => exact ⟨'[', [']'], by simp [renderVal], by decide, by decide,
        by decide⟩
    | cons x xs =>
      exact ⟨'[', '\n' :: (renderItems (d + 1) x xs ++
          '\n' :: (spaces (4 * d) ++ [']'])),
        by simp [renderVal], by decide, by decide, by decide⟩
  | obj kvs =>
    cases kvs with
    | nil => exact ⟨'\x7b', ['\x7d'], by simp [renderVal], by decide, by decide,
        by decide⟩
    | cons kv kvs =>
      exact ⟨'\x7b', '\n' :: (renderMembers (d + 1) kv kvs ++
          '\n' :: (spaces (4 * d) ++ ['\x7d'])),
        by simp [renderVal], by decide, by decide, by decide⟩

theorem renderVal_length_pos (d : Nat) (v : JVal) : 1 ≤ (renderVal d v).length := by
  obtain ⟨c, t, hct, -, -, -⟩ := renderVal_head d v
  rw [hct]
  simp

/-! ## Parser unfolding equations -/

theorem parseGo_val_eq (fuel : Nat) (cs : List Char) :
    parseGo (fuel + 1) (PReq.val cs) =
      match skipWs cs with
      | [] => none
      | c :: rest =>
        if c = 'n' then (dropLit ['u', 'l', 'l'] rest).map fun r => (JVal.null, r)
        else if c = 't' then
          (dropLit ['r', 'u', 'e'] rest).map fun r => (JVal.bool true, r)
        else if c = 'f' then
          (dropLit ['a', 'l', 's', 'e'] rest).map fun r => (JVal.bool false, r)
        else if c = '\"' then
          (parseStringBody rest []).map fun p => (JVal.str p.1, p.2)
        else if c = '[' then
          match skipWs rest with
          | ']' :: r => some (JVal.arr [], r)
          | _ => parseGo fuel (PReq.items rest [])
        else if c = '\x7b' then
          match skipWs rest with
          | '\x7d' :: r => some (JVal.obj [], r)
          | _ => parseGo fuel (PReq.members rest [])
        else parseNumber (c :: rest) := rfl

theorem parseGo_items_eq (fuel : Nat) (cs : List Char) (acc : List JVal) :
    parseGo (fuel + 1) (PReq.items cs acc) =
      match parseGo fuel (PReq.val cs) with
      | none => none
      | some (v, rest) =>
        match skipWs rest with
        | [] => none
        | c :: r =>
          if c = ',' then parseGo fuel (PReq.items r (acc ++ [v]))
          else if c = ']' then some (JVal.arr (acc ++ [v]), r)
          else none := rfl

theorem parseGo_members_eq (fuel : Nat) (cs : List Char)
    (acc : List (String × JVal)) :
    parseGo (fuel + 1) (PReq.members cs acc) =
      match skipWs cs with
      | [] => none
      | c0 :: rest =>
        if c0 = '\"' then
          match parseStringBody rest [] with
          | none => none
          | some (k, rest1) =>
            match skipWs rest1 with
            | [] => none
            | c1 :: r =>
              if c1 = ':' then
                match parseGo fuel (PReq.val r) with
                | none => none
                | some (v, rest2) =>
                  match skipWs rest2 with
                  | [] => none
                  | c2 :: r2 =>
                    if c2 = ',' then
                      parseGo fuel (PReq.members r2 (acc ++ [(k, v)]))
                    else if c2 = '\x7d' then
                      some (JVal.obj (acc ++ [(k, v)]), r2)
                    else none
              else none
        else none := rfl


theorem renderItems_eq (d : Nat) (x : JVal) (xs : List JVal) :
    ∃ tail, renderItems d x xs = spaces (4 * d) ++ (renderVal d x ++ tail) := by
  cases xs with
  | nil => exact ⟨[], by simp [renderItems]⟩
  | cons y ys =>
    exact ⟨',' :: '\n' :: renderItems d y ys, by simp [renderItems]⟩

theorem renderMembers_eq (d : Nat) (kv : String × JVal)
    (kvs : List (String × JVal)) :
    ∃ tail, renderMembers d kv kvs =
      spaces (4 * d) ++ ('\"' :: (escapeList kv.1.data ++
        ('\"' :: (':' :: (' ' :: (renderVal d kv.2 ++ tail)))))) := by
  obtain ⟨k, v⟩ := kv
  cases kvs with
  | nil => exact ⟨[], by simp [renderMembers, renderString]⟩
  | cons kv2 kvs2 =>
    exact ⟨',' :: '\n' :: renderMembers d kv2 kvs2,
      by simp [renderMembers, renderString]⟩

theorem nanFree_arr (xs : List JVal) : nanFree (JVal.arr xs) = nanFreeItems xs := by
  simp [nanFree]

theorem nanFree_obj (kvs : List (String × JVal)) :
    nanFree (JVal.obj kvs) = nanFreeMembers kvs := by
  simp [nanFree]

theorem nanFreeItems_cons (x : JVal) (xs : List JVal) :
    nanFreeItems (x :: xs) = (nanFree x && nanFreeItems xs) := by
  simp [nanFreeItems]

theorem nanFreeMembers_cons (kv : String × JVal) (kvs : List (String × JVal)) :
    nanFreeMembers (kv :: kvs) = (nanFree kv.2 && nanFreeMembers kvs) := by
  obtain ⟨k, v⟩ := kv
  simp [nanFreeMembers]

/-! ## Parser-serializer round trip -/

set_option maxHeartbeats 1000000 in
theorem parse_render (fuel : Nat) :
    (∀ (v : JVal) (d : Nat) (ws rest : List Char), nanFree v = true →
      wsOnly ws → HeadNotDigit rest →
      ws.length + (renderVal d v).length ≤ fuel →
      parseGo fuel (PReq.val (ws ++ (renderVal d v ++ rest))) = some (v, rest)) ∧
    (∀ (x : JVal) (xs : List JVal) (d : Nat) (acc : List JVal)
      (ws ws2 rest : List Char),
      nanFree x = true → nanFreeItems xs = true → wsOnly ws → wsOnly ws2 →
      ws.length + (renderItems d x xs).length + ws2.length + 1 ≤ fuel →
      parseGo fuel
        (PReq.items (ws ++ (renderItems d x xs ++ (ws2 ++ ']' :: rest))) acc) =
        some (JVal.arr (acc ++ x :: xs), rest)) ∧
    (∀ (kv : String × JVal) (kvs : List (String × JVal)) (d : Nat)
      (acc : List (String × JVal)) (ws ws2 rest : List Char),
      nanFree kv.2 = true → nanFreeMembers kvs = true → wsOnly ws → wsOnly ws2 →
      ws.length + (renderMembers d kv kvs).length + ws2.length + 1 ≤ fuel →
      parseGo fuel
        (PReq.members (ws ++ (renderMembers d kv kvs ++ (ws2 ++ '\x7d' :: rest))) acc) =
        some (JVal.obj (acc ++ kv :: kvs), rest)) := by
  induction fuel using Nat.strong_induction_on with
  | _ fuel IH =>
  refine ⟨?_, ?_, ?_⟩
  · intro v d ws rest hnf hws hrd hfuel
    have hpos := renderVal_length_pos d v
    obtain ⟨f, rfl⟩ : ∃ f, fuel = f + 1 := ⟨fuel - 1, by omega⟩
    cases v with
    | null =>
      rw [parseGo_val_eq,
        show renderVal d JVal.null ++ rest = 'n' :: 'u' :: 'l' :: 'l' :: rest from
          by simp [renderVal],
        skipWs_ws_append ws hws, skipWs_cons_not_ws _ _ (by decide)]
      simp [dropLit]
    | nan => exact absurd hnf (by simp [nanFree])
    | bool b =>
      cases b with
      | true =>
        rw [parseGo_val_eq,
          show renderVal d (JVal.bool true) ++ rest =
            't' :: 'r' :: 'u' :: 'e' :: rest from by simp [renderVal],
          skipWs_ws_append ws hws, skipWs_cons_not_ws _ _ (by decide)]
        simp [dropLit]
      | false =>
        rw [parseGo_val_eq,
          show renderVal d (JVal.bool false) ++ rest =
            'f' :: 'a' :: 'l' :: 's' :: 'e' :: rest from by simp [renderVal],
          skipWs_ws_append ws hws, skipWs_cons_not_ws _ _ (by decide)]
        simp [dropLit]
    | num n =>
      cases n with
      | ofNat m =>
        obtain ⟨c, t, hct, hcd⟩ := renderNat_cons m
        have hshape : renderVal d (JVal.num (Int.ofNat m)) ++ rest =
            c :: (t ++ rest) := by
          rw [show renderVal d (JVal.num (Int.ofNat m)) = renderNat m from
            by simp [renderVal, renderInt], hct]
          simp
        rw [parseGo_val_eq, hshape, skipWs_ws_append ws hws,
          skipWs_cons_not_ws _ _ (isDigit_not_ws c hcd)]
        dsimp only
        rw [if_neg (isDigit_ne c hcd 'n' (by decide)),
          if_neg (isDigit_ne c hcd 't' (by decide)),
          if_neg (isDigit_ne c hcd 'f' (by decide)),
          if_neg (isDigit_ne c hcd '\"' (by decide)),
          if_neg (isDigit_ne c hcd '[' (by decide)),
          if_neg (isDigit_ne c hcd '\x7b' (by decide)),
          show c :: (t ++ rest) = renderInt (Int.ofNat m) ++ rest from by
            rw [show renderInt (Int.ofNat m) = renderNat m from rfl, hct]; simp]
        exact parseNumber_render _ rest hrd
      | negSucc m =>
        have hshape : renderVal d (JVal.num (Int.negSucc m)) ++ rest =
            '-' :: (renderNat (m + 1) ++ rest) := by
          simp [renderVal, renderInt]
        rw [parseGo_val_eq, hshape, skipWs_ws_append ws hws,
          skipWs_cons_not_ws _ _ (by decide)]
        dsimp only
        rw [if_neg (by decide), if_neg (by decide), if_neg (by decide),
          if_neg (by decide), if_neg (by decide), if_neg (by decide),
          show '-' :: (renderNat (m + 1) ++ rest) =
            renderInt (Int.negSucc m) ++ rest from by simp [renderInt]]
        exact parseNumber_render _ rest hrd
    | str s =>
      rw [parseGo_val_eq,
        show renderVal d (JVal.str s) ++ rest =
          '\"' :: (escapeList s.data ++ '\"' :: rest) from by
            simp [renderVal, renderString],
        skipWs_ws_append ws hws, skipWs_cons_not_ws _ _ (by decide)]
      dsimp only
      rw [if_neg (by decide), if_neg (by decide), if_neg (by decide), if_pos rfl,
        parseStringBody_renderString s rest]
      rfl
    | arr xs =>
      cases xs with
      | nil =>
        rw [parseGo_val_eq,
          show renderVal d (JVal.arr []) ++ rest = '[' :: ']' :: rest from by
            simp [renderVal],
          skipWs_ws_append ws hws, skipWs_cons_not_ws _ _ (by decide)]
        dsimp only
        rw [if_neg (by decide), if_neg (by decide), if_neg (by decide),
          if_neg (by decide), if_pos rfl,
          skipWs_cons_not_ws ']' rest (by decide)]
        rfl
      | cons x xs =>
        have hnfx : nanFree x = true ∧ nanFreeItems xs = true := by
          rw [nanFree_arr, nanFreeItems_cons, Bool.and_eq_true] at hnf
          exact hnf
        have hlen : (renderVal d (JVal.arr (x :: xs))).length =
            (renderItems (d + 1) x xs).length + 4 * d + 4 := by
          simp [renderVal, spaces]
          omega
        obtain ⟨tail, htail⟩ := renderItems_eq (d + 1) x xs
        obtain ⟨c2, t2, hct2, hw2, hb1, hb2⟩ := renderVal_head (d + 1) x
        have hshape : renderVal d (JVal.arr (x :: xs)) ++ rest =
            '[' :: ('\n' :: (renderItems (d + 1) x xs ++
              ('\n' :: (spaces (4 * d) ++ (']' :: rest))))) := by
          simp [renderVal]
        have hskip2 : skipWs ('\n' :: (renderItems (d + 1) x xs ++
            ('\n' :: (spaces (4 * d) ++ (']' :: rest))))) =
            c2 :: (t2 ++ (tail ++ ('\n' :: (spaces (4 * d) ++ (']' :: rest))))) := by
          rw [htail, hct2,
            show '\n' :: ((spaces (4 * (d + 1)) ++ ((c2 :: t2) ++ tail)) ++
                ('\n' :: (spaces (4 * d) ++ (']' :: rest)))) =
              ('\n' :: spaces (4 * (d + 1))) ++
                (c2 :: (t2 ++ (tail ++ ('\n' :: (spaces (4 * d) ++ (']' :: rest)))))) from
              by simp,
            skipWs_ws_append _ (wsOnly_cons '\n' _ rfl (wsOnly_spaces _)),
            skipWs_cons_not_ws _ _ hw2]
        rw [parseGo_val_eq, hshape, skipWs_ws_append ws hws,
          skipWs_cons_not_ws _ _ (by decide)]
        dsimp only
        rw [if_neg (by decide), if_neg (by decide), if_neg (by decide),
          if_neg (by decide), if_pos rfl, hskip2]
        split
        · next r heq => exact absurd ((List.cons.inj heq).1) hb1
        · have hitems := (IH f (by omega)).2.1 x xs (d + 1) ([] : List JVal)
            (['\n'] : List Char) ('\n' :: spaces (4 * d)) rest hnfx.1 hnfx.2
            (wsOnly_cons '\n' [] rfl (fun c hc => absurd hc (List.not_mem_nil c)))
            (wsOnly_cons '\n' _ rfl (wsOnly_spaces _))
            (by simp only [List.length_cons, List.length_nil, spaces,
              List.length_replicate] at hlen ⊢; omega)
          simpa using hitems
    | obj kvs =>
      cases kvs with
      | nil =>
        rw [parseGo_val_eq,
          show renderVal d (JVal.obj []) ++ rest = '\x7b' :: '\x7d' :: rest from by
            simp [renderVal],
          skipWs_ws_append ws hws, skipWs_cons_not_ws _ _ (by decide)]
        dsimp only
        rw [if_neg (by decide), if_neg (by decide), if_neg (by decide),
          if_neg (by decide), if_neg (by decide), if_pos rfl,
          skipWs_cons_not_ws '\x7d' rest (by decide)]
        rfl
      | cons kv kvs =>
        have hnfkv : nanFree kv.2 = true ∧ nanFreeMembers kvs = true := by
          rw [nanFree_obj, nanFreeMembers_cons, Bool.and_eq_true] at hnf
          exact hnf
        have hlen : (renderVal d (JVal.obj (kv :: kvs))).length =
            (renderMembers (d + 1) kv kvs).length + 4 * d + 4 := by
          simp [renderVal, spaces]
          omega
        obtain ⟨tail, htail⟩ := renderMembers_eq (d + 1) kv kvs
        have hshape : renderVal d (JVal.obj (kv :: kvs)) ++ rest =
            '\x7b' :: ('\n' :: (renderMembers (d + 1) kv kvs ++
              ('\n' :: (spaces (4 * d) ++ ('\x7d' :: rest))))) := by
          simp [renderVal]
        have hskip2 : skipWs ('\n' :: (renderMembers (d + 1) kv kvs ++
            ('\n' :: (spaces (4 * d) ++ ('\x7d' :: rest))))) =
            '\"' :: ((escapeList kv.1.data ++
              ('\"' :: (':' :: (' ' :: (renderVal (d + 1) kv.2 ++ tail))))) ++
              ('\n' :: (spaces (4 * d) ++ ('\x7d' :: rest)))) := by
          rw [htail,
            show '\n' :: ((spaces (4 * (d + 1)) ++
                ('\"' :: (escapeList kv.1.data ++
                  ('\"' :: (':' :: (' ' :: (renderVal (d + 1) kv.2 ++ tail))))))) ++
                ('\n' :: (spaces (4 * d) ++ ('\x7d' :: rest)))) =
              ('\n' :: spaces (4 * (d + 1))) ++
                ('\"' :: ((escapeList kv.1.data ++
                  ('\"' :: (':' :: (' ' :: (renderVal (d + 1) kv.2 ++ tail))))) ++
                  ('\n' :: (spaces (4 * d) ++ ('\x7d' :: rest))))) from by simp,
            skipWs_ws_append _ (wsOnly_cons '\n' _ rfl (wsOnly_spaces _)),
            skipWs_cons_not_ws _ _ (by decide)]
        rw [parseGo_val_eq, hshape, skipWs_ws_append ws hws,
          skipWs_cons_not_ws _ _ (by decide)]
        dsimp only
        rw [if_neg (by decide), if_neg (by decide), if_neg (by decide),
          if_neg (by decide), if_neg (by decide), if_pos rfl, hskip2]
        split
        · next r heq => exact absurd ((List.cons.inj heq).1) (by decide)
        · have hmembers := (IH f (by omega)).2.2 kv kvs (d + 1)
            ([] : List (String × JVal))
            (['\n'] : List Char) ('\n' :: spaces (4 * d)) rest hnfkv.1 hnfkv.2
            (wsOnly_cons '\n' [] rfl (fun c hc => absurd hc (List.not_mem_nil c)))
            (wsOnly_cons '\n' _ rfl (wsOnly_spaces _))
            (by simp only [List.length_cons, List.length_nil, spaces,
              List.length_replicate] at hlen ⊢; omega)
          simpa using hmembers
  · intro x xs d acc ws ws2 rest hnfx hnfxs hws hws2 hfuel
    obtain ⟨f, rfl⟩ : ∃ f, fuel = f + 1 := ⟨fuel - 1, by omega⟩
    cases xs with
    | nil =>
      have hform : ws ++ (renderItems d x [] ++ (ws2 ++ ']' :: rest)) =
          (ws ++ spaces (4 * d)) ++ (renderVal d x ++ (ws2 ++ ']' :: rest)) := by
        simp [renderItems]
      have hlen1 : (renderItems d x []).length = 4 * d + (renderVal d x).length := by
        simp [renderItems, spaces]
      rw [parseGo_items_eq, hform]
      have hval := (IH f (by omega)).1 x d (ws ++ spaces (4 * d))
        (ws2 ++ ']' :: rest)
        hnfx (wsOnly_append _ _ hws (wsOnly_spaces _))
        (headNotDigit_ws_append ws2 hws2 ']' (by decide) rest)
        (by simp only [List.length_append, spaces, List.length_replicate]; omega)
      rw [hval]
      dsimp only
      rw [skipWs_ws_append ws2 hws2, skipWs_cons_not_ws ']' rest (by decide)]
      rfl
    | cons y ys =>
      have hnfy : nanFree y = true ∧ nanFreeItems ys = true := by
        rw [nanFreeItems_cons, Bool.and_eq_true] at hnfxs
        exact hnfxs
      have hform : ws ++ (renderItems d x (y :: ys) ++ (ws2 ++ ']' :: rest)) =
          (ws ++ spaces (4 * d)) ++ (renderVal d x ++
            (',' :: ('\n' :: (renderItems d y ys ++ (ws2 ++ ']' :: rest))))) := by
        simp [renderItems]
      have hlen1 : (renderItems d x (y :: ys)).length =
          4 * d + (renderVal d x).length + 2 + (renderItems d y ys).length := by
        simp [renderItems, spaces]
        omega
      have hvpos := renderVal_length_pos d x
      rw [parseGo_items_eq, hform]
      have hval := (IH f (by omega)).1 x d (ws ++ spaces (4 * d))
        (',' :: ('\n' :: (renderItems d y ys ++ (ws2 ++ ']' :: rest))))
        hnfx (wsOnly_append _ _ hws (wsOnly_spaces _))
        (headNotDigit_cons ',' (by decide) _)
        (by simp only [List.length_append, spaces, List.length_replicate]; omega)
      rw [hval]
      dsimp only
      rw [skipWs_cons_not_ws ',' _ (by decide)]
      have hitems := (IH f (by omega)).2.1 y ys d (acc ++ [x]) (['\n'] : List Char)
        ws2 rest hnfy.1 hnfy.2
        (wsOnly_cons '\n' [] rfl (fun c hc => absurd hc (List.not_mem_nil c)))
        hws2
        (by simp only [List.length_cons, List.length_nil]; omega)
      simpa using hitems
  · intro kv kvs d acc ws ws2 rest hnfv hnfkvs hws hws2 hfuel
    obtain ⟨f, rfl⟩ : ∃ f, fuel = f + 1 := ⟨fuel - 1, by omega⟩
    obtain ⟨k, v⟩ := kv
    cases kvs with
    | nil =>
      have hform : ws ++ (renderMembers d (k, v) [] ++ (ws2 ++ '\x7d' :: rest)) =
          (ws ++ spaces (4 * d)) ++ ('\"' :: (escapeList k.data ++
            ('\"' :: (':' :: (' ' :: (renderVal d v ++
              (ws2 ++ '\x7d' :: rest))))))) := by
        simp [renderMembers, renderString]
      have hlen1 : (renderMembers d (k, v) []).length =
          4 * d + (2 + (escapeList k.data).length) + 2 + (renderVal d v).length := by
        simp [renderMembers, renderString, spaces]
        omega
      rw [parseGo_members_eq, hform,
        skipWs_ws_append _ (wsOnly_append _ _ hws (wsOnly_spaces _)),
        skipWs_cons_not_ws '\"' _ (by decide)]
      dsimp only
      rw [if_pos rfl, parseStringBody_renderString k
        (':' :: (' ' :: (renderVal d v ++ (ws2 ++ '\x7d' :: rest))))]
      dsimp only
      rw [skipWs_cons_not_ws ':' _ (by decide)]
      dsimp only
      rw [if_pos rfl]
      have hval := (IH f (by omega)).1 v d ([' '] : List Char)
        (ws2 ++ '\x7d' :: rest)
        hnfv (wsOnly_cons ' ' [] rfl (fun c hc => absurd hc (List.not_mem_nil c)))
        (headNotDigit_ws_append ws2 hws2 '\x7d' (by decide) rest)
        (by simp only [List.length_cons, List.length_nil]; omega)
      rw [show (' ' :: (renderVal d v ++ (ws2 ++ '\x7d' :: rest))) =
        ([' '] : List Char) ++ (renderVal d v ++ (ws2 ++ '\x7d' :: rest)) from rfl,
        hval]
      dsimp only
      rw [skipWs_ws_append ws2 hws2, skipWs_cons_not_ws '\x7d' rest (by decide)]
      dsimp only
      rw [if_neg (by decide), if_pos rfl]
    | cons kv2 kvs2 =>
      have hnfkv2 : nanFree kv2.2 = true ∧ nanFreeMembers kvs2 = true := by
        rw [nanFreeMembers_cons, Bool.and_eq_true] at hnfkvs
        exact hnfkvs
      have hform : ws ++ (renderMembers d (k, v) (kv2 :: kvs2) ++
            (ws2 ++ '\x7d' :: rest)) =
          (ws ++ spaces (4 * d)) ++ ('\"' :: (escapeList k.data ++
            ('\"' :: (':' :: (' ' :: (renderVal d v ++
              (',' :: ('\n' :: (renderMembers d kv2 kvs2 ++
                (ws2 ++ '\x7d' :: rest)))))))))) := by
        simp [renderMembers, renderString]
      have hlen1 : (renderMembers d (k, v) (kv2 :: kvs2)).length =
          4 * d + (2 + (escapeList k.data).length) + 2 + (renderVal d v).length +
            2 + (renderMembers d kv2 kvs2).length := by
        simp [renderMembers, renderString, spaces]
        omega
      have hvpos := renderVal_length_pos d v
      rw [parseGo_members_eq, hform,
        skipWs_ws_append _ (wsOnly_append _ _ hws (wsOnly_spaces _)),
        skipWs_cons_not_ws '\"' _ (by decide)]
      dsimp only
      rw [if_pos rfl, parseStringBody_renderString k
        (':' :: (' ' :: (renderVal d v ++ (',' :: ('\n' ::
          (renderMembers d kv2 kvs2 ++ (ws2 ++ '\x7d' :: rest)))))))]
      dsimp only
      rw [skipWs_cons_not_ws ':' _ (by decide)]
      dsimp only
      rw [if_pos rfl]
      have hval := (IH f (by omega)).1 v d ([' '] : List Char)
        (',' :: ('\n' :: (renderMembers d kv2 kvs2 ++ (ws2 ++ '\x7d' :: rest))))
        hnfv (wsOnly_cons ' ' [] rfl (fun c hc => absurd hc (List.not_mem_nil c)))
        (headNotDigit_cons ',' (by decide) _)
        (by simp only [List.length_cons, List.length_nil]; omega)
      rw [show (' ' :: (renderVal d v ++ (',' :: ('\n' ::
          (renderMembers d kv2 kvs2 ++ (ws2 ++ '\x7d' :: rest)))))) =
        ([' '] : List Char) ++ (renderVal d v ++ (',' :: ('\n' ::
          (renderMembers d kv2 kvs2 ++ (ws2 ++ '\x7d' :: rest))))) from rfl,
        hval]
      dsimp only
      rw [skipWs_cons_not_ws ',' _ (by decide)]
      dsimp only
      rw [if_pos rfl]
      have hmembers := (IH f (by omega)).2.2 kv2 kvs2 d (acc ++ [(k, v)])
        (['\n'] : List Char) ws2 rest hnfkv2.1 hnfkv2.2
        (wsOnly_cons '\n' [] rfl (fun c hc => absurd hc (List.not_mem_nil c)))
        hws2
        (by simp only [List.length_cons, List.length_nil]; omega)
      simpa using hmembers

theorem nanFreeItems_append (l1 l2 : List JVal) :
    nanFreeItems (l1 ++ l2) = (nanFreeItems l1 && nanFreeItems l2) := by
  induction l1 with
  | nil => simp [nanFreeItems]
  | cons x xs ih =>
    rw [List.cons_append, nanFreeItems_cons, nanFreeItems_cons, ih,
      Bool.and_assoc]

theorem nanFreeMembers_append (l1 l2 : List (String × JVal)) :
    nanFreeMembers (l1 ++ l2) = (nanFreeMembers l1 && nanFreeMembers l2) := by
  induction l1 with
  | nil => simp [nanFreeMembers]
  | cons kv kvs ih =>
    rw [List.cons_append, nanFreeMembers_cons, nanFreeMembers_cons, ih,
      Bool.and_assoc]

theorem parseNumber_num (cs : List Char) (v : JVal) (r : List Char)
    (h : parseNumber cs = some (v, r)) : ∃ n, v = JVal.num n := by
  unfold parseNumber at h
  split at h
  · cases h
  · split at h
    · rcases Option.map_eq_some'.mp h with ⟨p, -, heq⟩
      exact ⟨_, ((Prod.mk.inj heq).1).symm⟩
    · rcases Option.map_eq_some'.mp h with ⟨p, -, heq⟩
      exact ⟨_, ((Prod.mk.inj heq).1).symm⟩

theorem parseGo_nanFree (fuel : Nat) :
    (∀ cs v rest, parseGo fuel (PReq.val cs) = some (v, rest) →
      nanFree v = true) ∧
    (∀ cs acc v rest, nanFreeItems acc = true →
      parseGo fuel (PReq.items cs acc) = some (v, rest) → nanFree v = true) ∧
    (∀ cs acc v rest, nanFreeMembers acc = true →
      parseGo fuel (PReq.members cs acc) = some (v, rest) → nanFree v = true) := by
  induction fuel using Nat.strong_induction_on with
  | _ fuel IH =>
  cases fuel with
  | zero =>
    refine ⟨?_, ?_, ?_⟩
    · intro cs v rest h
      cases h
    · intro cs acc v rest _ h
      cases h
    · intro cs acc v rest _ h
      cases h
  | succ f =>
    refine ⟨?_, ?_, ?_⟩
    · intro cs v rest h
      rw [parseGo_val_eq] at h
      split at h
      · cases h
      · split at h
        · rcases Option.map_eq_some'.mp h with ⟨r, -, heq⟩
          obtain ⟨rfl, rfl⟩ := Prod.mk.inj heq
          simp [nanFree]
        · split at h
          · rcases Option.map_eq_some'.mp h with ⟨r, -, heq⟩
            obtain ⟨rfl, rfl⟩ := Prod.mk.inj heq
            simp [nanFree]
          · split at h
            · rcases Option.map_eq_some'.mp h with ⟨r, -, heq⟩
              obtain ⟨rfl, rfl⟩ := Prod.mk.inj heq
              simp [nanFree]
            · split at h
              · rcases Option.map_eq_some'.mp h with ⟨p, -, heq⟩
                obtain ⟨rfl, rfl⟩ := Prod.mk.inj heq
                simp [nanFree]
              · split at h
                · split at h
                  · cases h
                    simp [nanFree, nanFreeItems]
                  · exact (IH f (by omega)).2.1 _ [] v rest
                      (by simp [nanFreeItems]) h
                · split at h
                  · split at h
                    · cases h
                      simp [nanFree, nanFreeMembers]
                    · exact (IH f (by omega)).2.2 _ [] v rest
                        (by simp [nanFreeMembers]) h
                  · obtain ⟨n, rfl⟩ := parseNumber_num _ _ _ h
                    simp [nanFree]
    · intro cs acc v rest hacc h
      rw [parseGo_items_eq] at h
      split at h
      · cases h
      · next v0 rest0 heq0 =>
        have hv0 := (IH f (by omega)).1 cs v0 rest0 heq0
        split at h
        · cases h
        · split at h
          · exact (IH f (by omega)).2.1 _ (acc ++ [v0]) v rest
              (by
                rw [nanFreeItems_append, hacc, Bool.true_and,
                  nanFreeItems_cons, hv0, Bool.true_and]
                simp [nanFreeItems]) h
          · split at h
            · cases h
              rw [nanFree_arr, nanFreeItems_append, hacc, Bool.true_and,
                nanFreeItems_cons, hv0, Bool.true_and]
              simp [nanFreeItems]
            · cases h
    · intro cs acc v rest hacc h
      rw [parseGo_members_eq] at h
      split at h
      · cases h
      · split at h
        · split at h
          · cases h
          · next k rest1 heqs =>
            split at h
            · cases h
            · split at h
              · split at h
                · cases h
                · next v0 rest2 heq0 =>
                  have hv0 := (IH f (by omega)).1 _ v0 rest2 heq0
                  split at h
                  · cases h
                  · split at h
                    · exact (IH f (by omega)).2.2 _ (acc ++ [(k, v0)]) v rest
                        (by
                          rw [nanFreeMembers_append, hacc, Bool.true_and,
                            nanFreeMembers_cons, hv0, Bool.true_and]
                          simp [nanFreeMembers]) h
                    · split at h
                      · cases h
                        rw [nanFree_obj, nanFreeMembers_append, hacc,
                          Bool.true_and, nanFreeMembers_cons, hv0, Bool.true_and]
                        simp [nanFreeMembers]
                      · cases h
              · cases h
        · cases h

/-! ## Claim C9 -/

/-- Claim C9: for a stored collection whose bytes parse, saving what load
returned writes bytes whose parse is the very value load returned — the
byte-level formatting (the pretty 4-space indentation) may differ from the
original bytes, but the semantic content is unchanged, so a reload through
`readJsonFile` yields the same value. -/
theorem c9_roundtrip (s : String) (v : JVal) (h : parseJson s = some v) :
    parseJson (stringifyPretty v) = some v ∧
    readJsonFile (some (stringifyPretty v)) = v := by
  have hnf : nanFree v = true := by
    unfold parseJson parseJsonList at h
    rcases hp : parseGo (s.data.length + 1) (PReq.val s.data) with _ | p
    · rw [hp] at h
      cases h
    · obtain ⟨v0, rest⟩ := p
      rw [hp] at h
      dsimp only at h
      by_cases hrest : skipWs rest = []
      · rw [if_pos hrest] at h
        cases h
        exact (parseGo_nanFree _).1 _ _ _ hp
      · rw [if_neg hrest] at h
        cases h
  have hparse := (parse_render ((renderVal 0 v).length + 1)).1 v 0 [] []
    hnf (fun c hc => absurd hc (List.not_mem_nil c)) headNotDigit_nil
    (by simp)
  rw [show ([] : List Char) ++ (renderVal 0 v ++ []) = renderVal 0 v from
    by simp] at hparse
  have hres : parseJson (stringifyPretty v) = some v := by
    show parseJsonList (renderVal 0 v) = some v
    unfold parseJsonList
    rw [hparse]
    rfl
  exact ⟨hres, by rw [readJsonFile, hres]⟩

/-- Witness for C9 on the empty collection. -/
theorem c9_roundtrip_witness :
    parseJson (stringifyPretty (JVal.arr [])) = some (JVal.arr []) ∧
    readJsonFile (some (stringifyPretty (JVal.arr []))) = JVal.arr [] :=
  c9_roundtrip "[]" (JVal.arr []) rfl
